import Mathlib

/-!
# Consent-manager core: shallow embedding and verification

This file embeds the invariant-bearing core of the consent-manager web
application (hash-chained audit log, consent versioning engine, enrollment
gate, category consistency guarantor) as executable Lean definitions
translated from `src/routes/study.js`, `src/routes/participant.js` and the
Prisma migrations, and proves or refutes the specified properties.

Modelling conventions:
* The relational store is a `DB` record of row lists; list order is insertion
  order.  Operations are sequential (one writer at a time), which is the
  serialization assumption the specification itself makes; under a monotone
  database clock, `orderBy createdAt` then coincides with insertion order.
* Timestamps are the ISO-8601 strings the JavaScript code feeds into hashes;
  they are supplied as explicit parameters (one per `new Date()` call in the
  source, plus one per database-default `CURRENT_TIMESTAMP` column).
* `JSON.stringify` is modelled by `Json.stringify` over a `Json` value type
  whose objects keep insertion order of keys, as JavaScript objects do.
* The SHA-256 hex digest is modelled by `sha256hex`, an abstract injective
  digest function; the proofs about hash equality only use that it is a
  deterministic function of the input string, while the refutation of
  recomputability uses injectivity as the stand-in for collision resistance.
-/

/-- JavaScript JSON value, with object fields in insertion order
(as produced by object literals and spreads in the source). -/
inductive Json where
  | null : Json
  | bool : Bool → Json
  | num : Int → Json
  | str : String → Json
  | arr : List Json → Json
  | obj : List (String × Json) → Json

/-- Lower-case hex digit, as used by `JSON.stringify` escapes. -/
def hexDigit (n : Nat) : Char :=
  if n < 10 then Char.ofNat (48 + n) else Char.ofNat (87 + n)

/-- Escape of a single character inside a JSON string literal,
following `JSON.stringify`. -/
def Json.escapeChar (c : Char) : String :=
  if c = '"' then "\\\""
  else if c = '\\' then "\\\\"
  else if c = '\n' then "\\n"
  else if c = '\r' then "\\r"
  else if c = '\t' then "\\t"
  else if c = '\x08' then "\\b"
  else if c = '\x0c' then "\\f"
  else if c.toNat < 32 then
    "\\u00" ++ String.singleton (hexDigit (c.toNat / 16)) ++
      String.singleton (hexDigit (c.toNat % 16))
  else String.singleton c

/-- Escape of a JSON string body, following `JSON.stringify`. -/
def Json.escape (s : String) : String :=
  String.join (s.toList.map Json.escapeChar)

mutual

/-- Model of JavaScript `JSON.stringify` (no spacing argument):
objects and arrays are serialized in order with no whitespace. -/
def Json.stringify : Json → String
  | .null => "null"
  | .bool b => if b then "true" else "false"
  | .num n => toString n
  | .str s => "\"" ++ Json.escape s ++ "\""
  | .arr xs => "[" ++ Json.stringifyItems xs ++ "]"
  | .obj fs => "\x7b" ++ Json.stringifyFields fs ++ "\x7d"

/-- Comma-separated serialization of JSON array elements. -/
def Json.stringifyItems : List Json → String
  | [] => ""
  | [x] => Json.stringify x
  | x :: y :: xs => Json.stringify x ++ "," ++ Json.stringifyItems (y :: xs)

/-- Comma-separated serialization of JSON object fields. -/
def Json.stringifyFields : List (String × Json) → String
  | [] => ""
  | [(k, v)] => "\"" ++ Json.escape k ++ "\":" ++ Json.stringify v
  | (k, v) :: f :: fs =>
      "\"" ++ Json.escape k ++ "\":" ++ Json.stringify v ++ "," ++
        Json.stringifyFields (f :: fs)

end

/-- The key list of a JSON object (empty for non-objects). -/
def Json.keys : Json → List String
  | .obj fs => fs.map Prod.fst
  | _ => []

/-- JavaScript object spread `{...base, key: v}`: if `key` is already an own
key its value is overwritten in place, otherwise the field is appended. -/
def Json.spreadSet (j : Json) (key : String) (v : Json) : Json :=
  match j with
  | .obj fs =>
      if fs.any (fun p => p.1 == key) then
        .obj (fs.map (fun p => if p.1 == key then (p.1, v) else p))
      else
        .obj (fs ++ [(key, v)])
  | other => other

/-- Removal of one field from a JSON object (identity on non-objects);
used to express "the receipt body with the hash field excluded". -/
def Json.removeKey (j : Json) (key : String) : Json :=
  match j with
  | .obj fs => .obj (fs.filter (fun p => !(p.1 == key)))
  | other => other

/-- Abstract model of the SHA-256 hex digest
(`crypto.createHash("sha256").update(body).digest("hex")` in the source).
The development only relies on the digest being a deterministic function of
its input; the model is injective, standing in for collision resistance. -/
def sha256hex (s : String) : String := "sha256#" ++ s

/-- `AuditLog` row (Prisma migration `add_consent_receipts_audit`):
`createdAt` is filled by the database default `CURRENT_TIMESTAMP`. -/
structure AuditEntry where
  studyId : String
  actorRole : String
  actorId : Option String
  action : String
  details : Json
  prevHash : Option String
  entryHash : String
  createdAt : String

/-- `ConsentChoice` row (also the shape of the in-memory `decisions`
array in the consent and withdraw routes). -/
structure ConsentChoice where
  categoryId : String
  allowed : Bool
deriving DecidableEq

/-- `Consent` row; the `ConsentChoice` rows created in the same nested
`create` are kept with their owning consent. -/
structure ConsentRow where
  studyId : String
  participantId : String
  version : Nat
  granted : Bool
  withdrawnAt : Option String
  receiptHash : String
  receiptJson : Json
  choices : List ConsentChoice

/-- `DataCategory` row. -/
structure DataCategory where
  id : String
  studyId : String
  name : String
  description : String
  required : Bool
  retentionDays : Option Int
deriving DecidableEq

/-- `Study` row.  `status` is the `StudyStatus` enum rendered as its string
value (`"draft"`, `"public"` or `"invite"`), matching how the routes compare
it. -/
structure Study where
  id : String
  ownerId : String
  slug : String
  title : String
  contactEmail : String
  retentionDefaultDays : Option Int
  version : Int
  status : String
  joinCode : Option String
deriving DecidableEq

/-- The relational store: one list per table, in insertion order.
Enrollments carry only their unique key `(studyId, participantId)`. -/
structure DB where
  studies : List Study
  cats : List DataCategory
  enrollments : List (String × String)
  consents : List ConsentRow
  audit : List AuditEntry

/-- The empty database. -/
def DB.empty : DB := ⟨[], [], [], [], []⟩

/-- Audit entries of one study, in creation order
(`where: { studyId }` with the serialized-appends reading of
`orderBy: { createdAt: "asc" }`). -/
def auditFor (db : DB) (studyId : String) : List AuditEntry :=
  db.audit.filter (fun e => e.studyId == studyId)

/-- Consent rows of one `(study, participant)` pair, in creation order. -/
def consentsFor (db : DB) (studyId participantId : String) : List ConsentRow :=
  db.consents.filter (fun c => c.studyId == studyId && c.participantId == participantId)

/-- The version numbers of a pair's consent rows, in creation order. -/
def versionsOf (db : DB) (studyId participantId : String) : List Nat :=
  (consentsFor db studyId participantId).map (·.version)

/-- The categories of one study, in creation order
(`findMany` / `include` with `orderBy: { createdAt: "asc" }`). -/
def catsFor (db : DB) (studyId : String) : List DataCategory :=
  db.cats.filter (fun c => c.studyId == studyId)

/-- `prisma.study.findUnique({ where: { slug } })`. -/
def findStudy (db : DB) (slug : String) : Option Study :=
  db.studies.find? (fun s => s.slug == slug)

/-- `addAudit` (identical helper in `study.js`, `participant.js` and the
researcher routes): reads the most recent entry for the study, hashes
`prevHash-or-"" + action + JSON.stringify(details) + jsNow`, and inserts a
row **without** a `createdAt` value, so the persisted `createdAt` is the
database default `dbNow`, not the `jsNow` that was hashed. -/
def addAudit (db : DB) (studyId actorRole : String) (actorId : Option String)
    (action : String) (details : Json) (jsNow dbNow : String) : DB × AuditEntry :=
  let prev? := (auditFor db studyId).getLast?
  let ph := match prev? with
    | some e => e.entryHash
    | none => ""
  let body := ph ++ action ++ Json.stringify details ++ jsNow
  let entry : AuditEntry :=
    { studyId := studyId
      actorRole := actorRole
      actorId := actorId
      action := action
      details := details
      prevHash := if ph == "" then none else some ph
      entryHash := sha256hex body
      createdAt := dbNow }
  ({ db with audit := db.audit ++ [entry] }, entry)

/-- Modelled from the spec (§4.1, Verification): recomputation of an audit
entry's hash from its four persisted fields
(`prevHash`, `action`, `details`, `createdAt`). -/
def specRecomputeEntryHash (e : AuditEntry) : String :=
  sha256hex ((e.prevHash.getD "") ++ e.action ++ Json.stringify e.details ++ e.createdAt)

/-- The canonical receipt `base` object built by both the consent route and
the withdraw route of `study.js` (field for field, in source order).
`withdrawal` is `null` for a consent and the withdrawal timestamp for a
withdrawal. -/
def receiptBase (study : Study) (pid : String) (cats : List DataCategory)
    (decisions : List ConsentChoice) (effAt : String) (withdrawal : Option String) : Json :=
  .obj [("receipt_version", .num 1),
        ("study", .obj [("slug", .str study.slug), ("title", .str study.title),
                        ("version", .num study.version), ("contact", .str study.contactEmail)]),
        ("participant", .obj [("pseudonymous_id", .str pid)]),
        ("decisions", .arr (decisions.map (fun d =>
            .obj [("category", .str (match cats.find? (fun c => c.id == d.categoryId) with
                   | some c => if c.name == "" then d.categoryId else c.name
                   | none => d.categoryId)),
                  ("allowed", .bool d.allowed)]))),
        ("retention", .obj [("default_days",
            match study.retentionDefaultDays with
            | some n => .num n
            | none => .null)]),
        ("effective_at", .str effAt),
        ("withdrawal", match withdrawal with
                       | some t => .str t
                       | none => .null)]

/-- The `decisions` payload embedded in the consent route's audit details. -/
def decisionsJson (ds : List ConsentChoice) : Json :=
  .arr (ds.map (fun d => .obj [("categoryId", .str d.categoryId), ("allowed", .bool d.allowed)]))

/-- `prisma.enrollment.upsert` on the unique key `(studyId, participantId)`:
create if absent, empty update otherwise. -/
def upsertEnrollment (db : DB) (studyId participantId : String) : DB :=
  if (studyId, participantId) ∈ db.enrollments then db
  else { db with enrollments := db.enrollments ++ [(studyId, participantId)] }

inductive EnrollResult where
  | ok : EnrollResult
  | notFound : EnrollResult
  | invalidCode : EnrollResult
deriving DecidableEq

/-- Model of JavaScript `String.prototype.toLowerCase` (character-wise,
which is exact for the ASCII data this system stores). -/
def jsToLower (s : String) : String := ⟨s.data.map Char.toLower⟩

/-- Model of JavaScript `String.prototype.toUpperCase` (character-wise). -/
def jsToUpper (s : String) : String := ⟨s.data.map Char.toUpper⟩

/-- Model of JavaScript `String.prototype.trim`: strip leading and
trailing whitespace. -/
def jsTrim (s : String) : String :=
  ⟨((s.data.dropWhile Char.isWhitespace).reverse.dropWhile Char.isWhitespace).reverse⟩

/-- The join-code gate of `POST /s/:slug/enroll`: admission is refused
exactly when the study's status is `invite`, a non-empty join code is
configured (`codeSet`), and the supplied code (`codeSupplied`), trimmed and
upper-cased, differs from the configured one. -/
def inviteGateBlocks (study : Study) (code : String) : Bool :=
  let codeSupplied := jsTrim code
  let codeSet := jsTrim (study.joinCode.getD "")
  jsToLower study.status == "invite" && codeSet != "" &&
    jsToUpper codeSupplied != jsToUpper codeSet

/-- `POST /s/:slug/enroll` (`study.js`): resolves the slug, checks the join
code only when the study is `invite` **and** a non-empty code is configured
(note: no study-status check besides that), then upserts the enrollment and
appends an `ENROLLED` audit entry. -/
def enrollOp (db : DB) (slug pid code jsNow dbNow : String) : DB × EnrollResult :=
  match findStudy db slug with
  | none => (db, .notFound)
  | some study =>
      if inviteGateBlocks study code then
        (db, .invalidCode)
      else
        let db1 := upsertEnrollment db study.id pid
        let db2 := (addAudit db1 study.id "participant" (some pid) "ENROLLED"
          (.obj [("via", .str "study_page")]) jsNow dbNow).1
        (db2, .ok)

/-- `normCode` (`participant.js`): uppercase, then strip every character
outside `A–Z0–9`. -/
def normCode (raw : String) : String :=
  ((jsToUpper raw).data.filter (fun c => ('A' ≤ c && c ≤ 'Z') || ('0' ≤ c && c ≤ '9'))).asString

inductive JoinResult where
  | ok : String → JoinResult
  | badFormat : JoinResult
  | noStudy : JoinResult
deriving DecidableEq

/-- The format check of `POST /participant/join`: a normalized code is
rejected when shorter than 4 or longer than 16 characters. -/
def joinCodeFormatBad (code : String) : Bool :=
  code.length < 4 || code.length > 16

/-- The `findFirst` predicate of `POST /participant/join`: a study matches
when its `joinCode` equals the normalized code and its status is `invite`
or `public` (a `draft` study is never matched). -/
def joinableWithCode (code : String) (s : Study) : Bool :=
  s.joinCode == some code && (s.status == "invite" || s.status == "public")

/-- `POST /participant/join` (`participant.js`): normalizes the code,
rejects codes with a bad format, looks for a non-draft study with that
join code, then upserts the enrollment and appends an `ENROLLED` audit
entry. -/
def joinByCode (db : DB) (pid raw jsNow dbNow : String) : DB × JoinResult :=
  let code := normCode raw
  if joinCodeFormatBad code then (db, .badFormat)
  else
    match db.studies.find? (joinableWithCode code) with
    | none => (db, .noStudy)
    | some study =>
        let db1 := upsertEnrollment db study.id pid
        let db2 := (addAudit db1 study.id "participant" (some pid) "ENROLLED"
          (.obj [("via", .str "join_code"), ("code", .str code)]) jsNow dbNow).1
        (db2, .ok study.slug)

/-- `POST /s/:slug/unenroll` (`study.js`): unconditional `deleteMany` of the
pair plus an `UNENROLLED` audit entry. -/
def unenrollOp (db : DB) (slug pid jsNow dbNow : String) : DB × Bool :=
  match findStudy db slug with
  | none => (db, false)
  | some study =>
      let db1 := { db with enrollments :=
        db.enrollments.filter (fun e => !(e.1 == study.id && e.2 == pid)) }
      let db2 := (addAudit db1 study.id "participant" (some pid) "UNENROLLED"
        (.obj [("via", .str "study_page")]) jsNow dbNow).1
      (db2, true)

/-- `findFirst({ where: { studyId, participantId }, orderBy: { version: "desc" } })`
seen through `prev ? prev.version + 1 : 1`: the next version number for the
pair.  On natural numbers this equals one more than the maximum stored
version (and `1` when no row exists). -/
def nextVersion (db : DB) (studyId participantId : String) : Nat :=
  (versionsOf db studyId participantId).foldl max 0 + 1

inductive ConsentResult where
  | ok : Nat → ConsentResult
  | notFound : ConsentResult
  | txFailed : ConsentResult
deriving DecidableEq

/-- `POST /s/:slug/consent` (`study.js`).  The only gate is slug resolution.
Decisions force `allowed = true` for `required` categories and take the
submitted checkbox (`form`) otherwise.  The Consent row and its nested
choices are created inside `prisma.$transaction`, but `addAudit` runs on the
**global** client, so the audit insert commits even when the surrounding
transaction does not (`commitOk = false` models a transaction that fails at
commit after the audit insert succeeded). -/
def consentOp (db : DB) (slug pid : String) (form : String → Bool)
    (effNow jsNow dbNow : String) (commitOk : Bool) : DB × ConsentResult :=
  match findStudy db slug with
  | none => (db, .notFound)
  | some study =>
      let cats := catsFor db study.id
      let decisions := cats.map (fun c =>
        { categoryId := c.id, allowed := if c.required then true else form c.id : ConsentChoice })
      let hadPrev := !(consentsFor db study.id pid).isEmpty
      let version := nextVersion db study.id pid
      let granted := decisions.any (·.allowed)
      let base := receiptBase study pid cats decisions effNow none
      let hash := sha256hex (Json.stringify base)
      let row : ConsentRow :=
        { studyId := study.id
          participantId := pid
          version := version
          granted := granted
          withdrawnAt := none
          receiptHash := "sha256:" ++ hash
          receiptJson := base.spreadSet "receipt_hash" (.str ("sha256:" ++ hash))
          choices := decisions }
      let action := if hadPrev then "CONSENT_EDITED" else "CONSENT_GIVEN"
      let db1 := (addAudit db study.id "participant" (some pid) action
        (.obj [("version", .num version), ("granted", .bool granted),
               ("decisions", decisionsJson decisions)]) jsNow dbNow).1
      if commitOk then
        ({ db1 with consents := db1.consents ++ [row] }, .ok version)
      else
        (db1, .txFailed)

/-- `POST /s/:slug/withdraw` (`study.js`): like the consent route, but every
decision is forced to `allowed = false` (required categories included),
`granted` is `false` and `withdrawnAt` is set to the same timestamp that is
embedded in the receipt. -/
def withdrawOp (db : DB) (slug pid nowIso jsNow dbNow : String)
    (commitOk : Bool) : DB × ConsentResult :=
  match findStudy db slug with
  | none => (db, .notFound)
  | some study =>
      let cats := catsFor db study.id
      let decisions := cats.map (fun c => { categoryId := c.id, allowed := false : ConsentChoice })
      let version := nextVersion db study.id pid
      let base := receiptBase study pid cats decisions nowIso (some nowIso)
      let hash := sha256hex (Json.stringify base)
      let row : ConsentRow :=
        { studyId := study.id
          participantId := pid
          version := version
          granted := false
          withdrawnAt := some nowIso
          receiptHash := "sha256:" ++ hash
          receiptJson := base.spreadSet "receipt_hash" (.str ("sha256:" ++ hash))
          choices := decisions }
      let db1 := (addAudit db study.id "participant" (some pid) "WITHDRAWN"
        (.obj [("version", .num version)]) jsNow dbNow).1
      if commitOk then
        ({ db1 with consents := db1.consents ++ [row] }, .ok version)
      else
        (db1, .txFailed)

/-- The fixed default category sequence of `ensureThreeCategories`
(name, description, required, retentionDays). -/
def defaultCatSpecs : List (String × String × Bool × Option Int) :=
  [("Email", "", false, none),
   ("Usage Logs", "", true, none),
   ("Accelerometer", "", true, none)]

/-- The rows `ensureThreeCategories` creates when only `k` categories
exist: one row per index `i ∈ [k, 3)`, from `defaults[i] || fallback(i)`;
`fresh i` supplies the generated primary key for index `i`. -/
def missingDefaults (studyId : String) (k : Nat) (fresh : Nat → String) :
    List DataCategory :=
  (List.range' k (3 - k)).map (fun i =>
    let spec := defaultCatSpecs.getD i
      ("Category " ++ toString (i + 1), "", false, none)
    { id := fresh i
      studyId := studyId
      name := spec.1
      description := spec.2.1
      required := spec.2.2.1
      retentionDays := spec.2.2.2 : DataCategory })

/-- `ensureThreeCategories` (researcher routes): read the study's categories
in creation order; if fewer than three exist, create the missing ones from
the default sequence and re-read. -/
def ensureThreeCategories (db : DB) (studyId : String) (fresh : Nat → String) :
    DB × List DataCategory :=
  let cats := catsFor db studyId
  if cats.length ≥ 3 then (db, cats)
  else
    let toCreate := missingDefaults studyId cats.length fresh
    let db1 := { db with cats := db.cats ++ toCreate }
    (db1, catsFor db1 studyId)

/-- `POST /researcher/studies/:slug/delete`: transactional deletion of the
study with all dependent rows (uploads are outside this model). -/
def deleteStudyOp (db : DB) (slug : String) : DB :=
  match findStudy db slug with
  | none => db
  | some study =>
      { studies := db.studies.filter (fun s => !(s.id == study.id))
        cats := db.cats.filter (fun c => !(c.studyId == study.id))
        enrollments := db.enrollments.filter (fun e => !(e.1 == study.id))
        consents := db.consents.filter (fun c => !(c.studyId == study.id))
        audit := db.audit.filter (fun e => !(e.studyId == study.id)) }

/-- One nested category `create` of the create-study route: the parsed form
fields are `(name, description, required, retentionDays)` with the source's
defaulting `cN_name || defName` applied to the name (`""` models an absent
field, which is falsy in JavaScript). -/
def createCatRow (cid studyId : String) (spec : String × String × Bool × Option Int)
    (defName : String) : DataCategory :=
  { id := cid
    studyId := studyId
    name := if spec.1 == "" then defName else spec.1
    description := spec.2.1
    required := spec.2.2.1
    retentionDays := spec.2.2.2 }

/-- `POST /researcher/studies/new` (researcher routes): creates the Study
row together with its three category rows in one nested `create`, then
appends a `STUDY_CREATED` audit entry.  `slug` is the route's
`slugify(title)` result and `genCode` its `genJoinCode()` result (both
helpers live outside this repository snapshot); `id` and `cid1`–`cid3` are
the generated primary keys.  A slug collision makes the insert fail on the
unique index `Study_slug_key` (error P2002) with no state change; the
join code is stored only for `invite` studies, trimmed and upper-cased,
falling back to the generated code when blank. -/
def createStudyOp (db : DB) (id ownerId slug title contactEmail : String)
    (retentionDefaultDays : Option Int) (status rawJoin genCode : String)
    (cid1 cid2 cid3 : String) (c1 c2 c3 : String × String × Bool × Option Int)
    (jsNow dbNow : String) : DB × Bool :=
  if db.studies.any (fun s => s.slug == slug) then (db, false)
  else
    let ensureJoin :=
      if status == "invite" then
        let t := jsToUpper (jsTrim rawJoin)
        some (if t == "" then genCode else t)
      else none
    let study : Study :=
      { id := id, ownerId := ownerId, slug := slug, title := title,
        contactEmail := contactEmail, retentionDefaultDays := retentionDefaultDays,
        version := 1, status := status, joinCode := ensureJoin }
    let rows := [createCatRow cid1 id c1 "Email",
                 createCatRow cid2 id c2 "Usage Logs",
                 createCatRow cid3 id c3 "Accelerometer"]
    let db1 := { db with studies := db.studies ++ [study], cats := db.cats ++ rows }
    let db2 := (addAudit db1 id "researcher" (some ownerId) "STUDY_CREATED"
      (.obj [("status", .str status)]) jsNow dbNow).1
    (db2, true)

/-- The modelled operations on the store (the environment-chosen data of
each call is carried as constructor arguments). -/
inductive Op where
  | createStudy (id ownerId slug title contactEmail : String)
      (retentionDefaultDays : Option Int) (status rawJoin genCode : String)
      (cid1 cid2 cid3 : String) (c1 c2 c3 : String × String × Bool × Option Int)
      (jsNow dbNow : String) : Op
  | enroll (slug pid code jsNow dbNow : String) : Op
  | join (pid raw jsNow dbNow : String) : Op
  | unenroll (slug pid jsNow dbNow : String) : Op
  | consent (slug pid : String) (form : String → Bool)
      (effNow jsNow dbNow : String) (commitOk : Bool) : Op
  | withdraw (slug pid nowIso jsNow dbNow : String) (commitOk : Bool) : Op
  | ensureCats (studyId : String) (fresh : Nat → String) : Op
  | deleteStudy (slug : String) : Op

/-- Whether an operation is the whole-study deletion. -/
def Op.isDelete : Op → Bool
  | .deleteStudy _ => true
  | _ => false

/-- State transition of one operation. -/
def applyOp (db : DB) : Op → DB
  | .createStudy id ownerId slug title contactEmail ret status rawJoin genCode
      cid1 cid2 cid3 c1 c2 c3 jsNow dbNow =>
      (createStudyOp db id ownerId slug title contactEmail ret status rawJoin genCode
        cid1 cid2 cid3 c1 c2 c3 jsNow dbNow).1
  | .enroll slug pid code jsNow dbNow => (enrollOp db slug pid code jsNow dbNow).1
  | .join pid raw jsNow dbNow => (joinByCode db pid raw jsNow dbNow).1
  | .unenroll slug pid jsNow dbNow => (unenrollOp db slug pid jsNow dbNow).1
  | .consent slug pid form effNow jsNow dbNow commitOk =>
      (consentOp db slug pid form effNow jsNow dbNow commitOk).1
  | .withdraw slug pid nowIso jsNow dbNow commitOk =>
      (withdrawOp db slug pid nowIso jsNow dbNow commitOk).1
  | .ensureCats studyId fresh => (ensureThreeCategories db studyId fresh).1
  | .deleteStudy slug => deleteStudyOp db slug

/-- Sequential execution of a list of operations (the serialized schedule
assumed by the specification). -/
def applyOps (db : DB) (ops : List Op) : DB :=
  ops.foldl applyOp db

/-- The hash-chain predicate: walking a study's entries in creation order,
the first entry's `prevHash` is `p` and each subsequent entry's `prevHash`
is the `entryHash` of its predecessor. -/
def chainFrom : Option String → List AuditEntry → Prop
  | _, [] => True
  | p, e :: rest => e.prevHash = p ∧ chainFrom (some e.entryHash) rest

/-- Receipt self-verification check: recomputing the digest of the persisted
`receiptJson` body with the `receipt_hash` field removed, prefixed with
`"sha256:"`, reproduces the stored `receiptHash` column. -/
def receiptOk (c : ConsentRow) : Bool :=
  c.receiptHash == "sha256:" ++ sha256hex (Json.stringify (c.receiptJson.removeKey "receipt_hash"))

/-- Every study's stored audit entries form an unbroken chain whose first
entry has `prevHash = null`. -/
def AuditChainOk (db : DB) : Prop := ∀ sid, chainFrom none (auditFor db sid)

/-- Every stored audit entry has a non-empty `entryHash` (it is a digest). -/
def AuditHashesOk (db : DB) : Prop := ∀ e ∈ db.audit, e.entryHash ≠ ""

/-- For every `(study, participant)` pair the stored consent versions, in
creation order, are exactly `1, 2, …, n`. -/
def VersionsOk (db : DB) : Prop :=
  ∀ sid pid, versionsOf db sid pid = List.range' 1 (versionsOf db sid pid).length

/-- Every stored consent row passes receipt self-verification. -/
def ReceiptsOk (db : DB) : Prop := db.consents.all receiptOk = true

/-- The conjunction of the reachable-state invariants. -/
def DBInv (db : DB) : Prop :=
  VersionsOk db ∧ AuditChainOk db ∧ AuditHashesOk db ∧ ReceiptsOk db

/-- A study row fixture. -/
def mkStudy (id slug status : String) (joinCode : Option String) : Study :=
  { id := id, ownerId := "r1", slug := slug, title := "Study One",
    contactEmail := "owner@example.org", retentionDefaultDays := none,
    version := 1, status := status, joinCode := joinCode }

/-- A category row fixture. -/
def mkCat (id studyId name : String) (required : Bool) : DataCategory :=
  { id := id, studyId := studyId, name := name, description := "",
    required := required, retentionDays := none }

/-- Fixture: a public study with one required category and no data. -/
def dbPub : DB :=
  { studies := [mkStudy "s1" "study-1" "public" none],
    cats := [mkCat "c1" "s1" "Email" true],
    enrollments := [], consents := [], audit := [] }

/-- Fixture: a draft study with no join code and no data. -/
def dbDraft : DB :=
  { studies := [mkStudy "s1" "draft-study" "draft" none],
    cats := [mkCat "c1" "s1" "Email" false],
    enrollments := [], consents := [], audit := [] }

/-- Fixture: an invite study with join code `"ABCD1234"`. -/
def dbInvite : DB :=
  { studies := [mkStudy "s1" "invite-study" "invite" (some "ABCD1234")],
    cats := [mkCat "c1" "s1" "Email" false],
    enrollments := [], consents := [], audit := [] }

/-- Default value used with `List.getD` over category lists. -/
def dummyCat : DataCategory :=
  { id := "", studyId := "", name := "", description := "", required := false,
    retentionDays := none }

/-- Default value used with `List.getD` over choice lists. -/
def dummyChoice : ConsentChoice := { categoryId := "", allowed := false }

/-- A demonstration trace from the empty store: create a public study with
three categories, enroll a participant, record a consent, then a
withdrawal.  It populates the studies, audit and consents tables, so the
trace-quantified theorems below are exercised on non-trivial stores. -/
def demoOps : List Op :=
  [Op.createStudy "s1" "r1" "study-one" "Study One" "owner@example.org" none
     "public" "" "JOIN1234" "c1" "c2" "c3"
     ("Email", "", false, none) ("Usage Logs", "", true, none)
     ("Accelerometer", "", false, none) "T01" "T02",
   Op.enroll "study-one" "p1" "" "T03" "T04",
   Op.consent "study-one" "p1" (fun _ => true) "T05" "T06" "T07" true,
   Op.withdraw "study-one" "p1" "T08" "T09" "T10" true]

theorem sha256hex_ne_empty (s : String) : sha256hex s ≠ "" := by
  intro h
  have h2 : ("sha256#" ++ s).data = ("" : String).data := congrArg String.data h
  rw [String.data_append] at h2
  have h3 : "sha256#".data = [] := (List.append_eq_nil.mp h2).1
  exact absurd h3 (by decide)

theorem chainFrom_append (p : Option String) (l : List AuditEntry) (e : AuditEntry)
    (hc : chainFrom p l)
    (he : e.prevHash = match l.getLast? with
                       | some x => some x.entryHash
                       | none => p) :
    chainFrom p (l ++ [e]) := by
  induction l generalizing p with
  | nil => exact ⟨he, trivial⟩
  | cons a t ih =>
      obtain ⟨h1, h2⟩ := hc
      refine ⟨h1, ih _ h2 ?_⟩
      cases t with
      | nil => simpa using he
      | cons b u => simpa using he

theorem filter_not_filter_sub {α} (l : List α) (f g : α → Bool)
    (h : ∀ a, g a = true → f a = true) :
    (l.filter (fun a => !(f a))).filter g = [] := by
  induction l with
  | nil => rfl
  | cons a t ih =>
      by_cases hf : f a = true
      · simp [List.filter_cons, hf, ih]
      · have hg : g a = false := by
          cases hga : g a
          · rfl
          · exact absurd (h a hga) hf
        have hf' : f a = false := by
          cases hfa : f a
          · rfl
          · exact absurd hfa hf
        simp [List.filter_cons, hf', hg, ih]

theorem filter_not_filter_disj {α} (l : List α) (f g : α → Bool)
    (h : ∀ a, g a = true → f a = false) :
    (l.filter (fun a => !(f a))).filter g = l.filter g := by
  induction l with
  | nil => rfl
  | cons a t ih =>
      by_cases hg : g a = true
      · have hf := h a hg
        simp [List.filter_cons, hf, hg, ih]
      · have hg' : g a = false := by
          cases hga : g a
          · rfl
          · exact absurd hga hg
        by_cases hf : f a = true
        · simp [List.filter_cons, hf, hg', ih]
        · have hf' : f a = false := by
            cases hfa : f a
            · rfl
            · exact absurd hfa hf
          simp [List.filter_cons, hf', hg', ih]

theorem all_filter_of_all {α} (l : List α) (p q : α → Bool)
    (h : l.all p = true) : (l.filter q).all p = true := by
  rw [List.all_eq_true] at h ⊢
  intro a ha
  exact h a (List.mem_filter.mp ha).1

theorem foldl_max_range' (n : Nat) : (List.range' 1 n).foldl max 0 = n := by
  induction n with
  | zero => rfl
  | succ k ih =>
      rw [List.range'_concat, List.foldl_append, ih]
      show max k (1 + 1 * k) = k + 1
      omega

theorem range'_snoc (n : Nat) : List.range' 1 n ++ [n + 1] = List.range' 1 (n + 1) := by
  rw [List.range'_concat]
  congr 2
  omega

theorem addAudit_audit (db : DB) (sid role : String) (aid : Option String)
    (action : String) (details : Json) (t1 t2 : String) :
    (addAudit db sid role aid action details t1 t2).1.audit
      = db.audit ++ [(addAudit db sid role aid action details t1 t2).2] := rfl

theorem addAudit_consents (db : DB) (sid role : String) (aid : Option String)
    (action : String) (details : Json) (t1 t2 : String) :
    (addAudit db sid role aid action details t1 t2).1.consents = db.consents := rfl

theorem addAudit_studies (db : DB) (sid role : String) (aid : Option String)
    (action : String) (details : Json) (t1 t2 : String) :
    (addAudit db sid role aid action details t1 t2).1.studies = db.studies := rfl

theorem addAudit_enrollments (db : DB) (sid role : String) (aid : Option String)
    (action : String) (details : Json) (t1 t2 : String) :
    (addAudit db sid role aid action details t1 t2).1.enrollments = db.enrollments := rfl

theorem upsert_audit (db : DB) (sid pid : String) :
    (upsertEnrollment db sid pid).audit = db.audit := by
  unfold upsertEnrollment
  split <;> rfl

theorem upsert_studies (db : DB) (sid pid : String) :
    (upsertEnrollment db sid pid).studies = db.studies := by
  unfold upsertEnrollment
  split <;> rfl

theorem DBInv_addAudit (db : DB) (sid role : String) (aid : Option String)
    (action : String) (details : Json) (t1 t2 : String) (h : DBInv db) :
    DBInv (addAudit db sid role aid action details t1 t2).1 := by
  obtain ⟨hv, hc, hh, hr⟩ := h
  refine ⟨hv, ?_, ?_, hr⟩
  · intro sid'
    have hfa : auditFor (addAudit db sid role aid action details t1 t2).1 sid'
        = auditFor db sid'
          ++ List.filter (fun x => x.studyId == sid')
               [(addAudit db sid role aid action details t1 t2).2] := by
      show ((db.audit ++ [(addAudit db sid role aid action details t1 t2).2]).filter
        (fun x => x.studyId == sid')) = _
      rw [List.filter_append]
      rfl
    rw [hfa]
    by_cases hs : ((addAudit db sid role aid action details t1 t2).2.studyId == sid') = true
    · have hsid : sid = sid' := by
        have : ((addAudit db sid role aid action details t1 t2).2.studyId) = sid := rfl
        rw [this] at hs
        exact beq_iff_eq.mp hs
      subst hsid
      have hsingle : List.filter (fun x => x.studyId == sid)
          [(addAudit db sid role aid action details t1 t2).2]
            = [(addAudit db sid role aid action details t1 t2).2] := by
        simp only [List.filter_cons, hs, if_true, List.filter_nil]
      rw [hsingle]
      apply chainFrom_append _ _ _ (hc sid)
      cases hlast : (auditFor db sid).getLast? with
      | none =>
          show (addAudit db sid role aid action details t1 t2).2.prevHash = none
          unfold addAudit
          simp [hlast]
      | some x =>
          have hx : x ∈ db.audit :=
            (List.mem_filter.mp (List.mem_of_getLast?_eq_some hlast)).1
          have hne : (x.entryHash == "") = false := beq_eq_false_iff_ne.mpr (hh x hx)
          show (addAudit db sid role aid action details t1 t2).2.prevHash = some x.entryHash
          unfold addAudit
          simp [hlast, hne]
    · have hs' : ((addAudit db sid role aid action details t1 t2).2.studyId == sid') = false := by
        cases hb : ((addAudit db sid role aid action details t1 t2).2.studyId == sid')
        · rfl
        · exact absurd hb hs
      have hsingle : List.filter (fun x => x.studyId == sid')
          [(addAudit db sid role aid action details t1 t2).2] = [] := by
        simp only [List.filter_cons, hs', if_false, List.filter_nil]
        rfl
      rw [hsingle, List.append_nil]
      exact hc sid'
  · intro e he
    rw [addAudit_audit] at he
    rcases List.mem_append.mp he with h1 | h2
    · exact hh e h1
    · have : e = (addAudit db sid role aid action details t1 t2).2 := by
        simpa using h2
      rw [this]
      exact sha256hex_ne_empty _

theorem removeKey_receiptBase (study : Study) (pid : String) (cats : List DataCategory)
    (decisions : List ConsentChoice) (eff : String) (w : Option String) (v : Json) :
    ((receiptBase study pid cats decisions eff w).spreadSet "receipt_hash" v).removeKey
        "receipt_hash"
      = receiptBase study pid cats decisions eff w := rfl

theorem receiptOk_build (sid pid : String) (v : Nat) (g : Bool) (wd : Option String)
    (study : Study) (p2 : String) (cats : List DataCategory)
    (ds ch : List ConsentChoice) (eff : String) (w : Option String) :
    receiptOk
      { studyId := sid, participantId := pid, version := v, granted := g, withdrawnAt := wd,
        receiptHash := "sha256:" ++ sha256hex (Json.stringify (receiptBase study p2 cats ds eff w)),
        receiptJson := (receiptBase study p2 cats ds eff w).spreadSet "receipt_hash"
          (.str ("sha256:" ++ sha256hex (Json.stringify (receiptBase study p2 cats ds eff w)))),
        choices := ch } = true := by
  unfold receiptOk
  simp only [removeKey_receiptBase]
  exact beq_self_eq_true _

theorem versionsOf_append (db : DB) (row : ConsentRow) (sid pid : String) :
    versionsOf { db with consents := db.consents ++ [row] } sid pid
      = versionsOf db sid pid
        ++ (List.filter (fun c => c.studyId == sid && c.participantId == pid) [row]).map
             (·.version) := by
  unfold versionsOf consentsFor
  show ((db.consents ++ [row]).filter _).map _ = _
  rw [List.filter_append, List.map_append]

theorem DBInv_appendConsent (db : DB) (row : ConsentRow)
    (hver : row.version = nextVersion db row.studyId row.participantId)
    (hrec : receiptOk row = true)
    (h : DBInv db) : DBInv { db with consents := db.consents ++ [row] } := by
  obtain ⟨hv, hc, hh, hr⟩ := h
  refine ⟨?_, hc, hh, ?_⟩
  · intro sid pid
    rw [versionsOf_append]
    by_cases hm : (row.studyId == sid && row.participantId == pid) = true
    · have hm2 : row.studyId = sid ∧ row.participantId = pid := by simpa using hm
      have hsingle : List.filter (fun c => c.studyId == sid && c.participantId == pid) [row]
          = [row] := by
        simp only [List.filter_cons, hm, if_true, List.filter_nil]
      rw [hsingle]
      simp only [List.map_cons, List.map_nil]
      set n := (versionsOf db sid pid).length with hn
      have hvsp : versionsOf db sid pid = List.range' 1 n := hv sid pid
      have hnext : row.version = n + 1 := by
        rw [hver, hm2.1, hm2.2]
        unfold nextVersion
        rw [hvsp, foldl_max_range']
      rw [hnext, hvsp]
      rw [List.length_append, List.length_range', List.length_cons, List.length_nil,
        range'_snoc]
    · have hm' : (row.studyId == sid && row.participantId == pid) = false := by
        cases hb : (row.studyId == sid && row.participantId == pid)
        · rfl
        · exact absurd hb hm
      have hsingle : List.filter (fun c => c.studyId == sid && c.participantId == pid) [row]
          = [] := by
        simp only [List.filter_cons, hm', if_false, List.filter_nil]
        rfl
      rw [hsingle]
      simp only [List.map_nil, List.append_nil]
      exact hv sid pid
  · show (db.consents ++ [row]).all receiptOk = true
    rw [List.all_append]
    have h1 : db.consents.all receiptOk = true := hr
    simp [List.all_cons, hrec, h1]

theorem DBInv_upsert (db : DB) (sid pid : String) (h : DBInv db) :
    DBInv (upsertEnrollment db sid pid) := by
  unfold upsertEnrollment
  split
  · exact h
  · exact h

theorem DBInv_enrollOp (db : DB) (slug pid code t1 t2 : String) (h : DBInv db) :
    DBInv (enrollOp db slug pid code t1 t2).1 := by
  unfold enrollOp
  cases hfind : findStudy db slug with
  | none => exact h
  | some study =>
      simp only []
      split
      · exact h
      · exact DBInv_addAudit _ _ _ _ _ _ _ _ (DBInv_upsert db study.id pid h)

theorem DBInv_joinByCode (db : DB) (pid raw t1 t2 : String) (h : DBInv db) :
    DBInv (joinByCode db pid raw t1 t2).1 := by
  unfold joinByCode
  dsimp only
  split
  · exact h
  · cases hfind : db.studies.find? (joinableWithCode (normCode raw)) with
    | none => exact h
    | some study => exact DBInv_addAudit _ _ _ _ _ _ _ _ (DBInv_upsert db study.id pid h)

theorem DBInv_unenrollOp (db : DB) (slug pid t1 t2 : String) (h : DBInv db) :
    DBInv (unenrollOp db slug pid t1 t2).1 := by
  unfold unenrollOp
  cases hfind : findStudy db slug with
  | none => exact h
  | some study => exact DBInv_addAudit _ _ _ _ _ _ _ _ h

theorem DBInv_consentOp (db : DB) (slug pid : String) (form : String → Bool)
    (effNow t1 t2 : String) (ck : Bool) (h : DBInv db) :
    DBInv (consentOp db slug pid form effNow t1 t2 ck).1 := by
  unfold consentOp
  cases hfind : findStudy db slug with
  | none => exact h
  | some study =>
      cases ck with
      | false => exact DBInv_addAudit _ _ _ _ _ _ _ _ h
      | true =>
          apply DBInv_appendConsent
          · rfl
          · exact receiptOk_build _ _ _ _ _ _ _ _ _ _ _ _
          · exact DBInv_addAudit _ _ _ _ _ _ _ _ h

theorem DBInv_withdrawOp (db : DB) (slug pid nowIso t1 t2 : String) (ck : Bool) (h : DBInv db) :
    DBInv (withdrawOp db slug pid nowIso t1 t2 ck).1 := by
  unfold withdrawOp
  cases hfind : findStudy db slug with
  | none => exact h
  | some study =>
      cases ck with
      | false => exact DBInv_addAudit _ _ _ _ _ _ _ _ h
      | true =>
          apply DBInv_appendConsent
          · rfl
          · exact receiptOk_build _ _ _ _ _ _ _ _ _ _ _ _
          · exact DBInv_addAudit _ _ _ _ _ _ _ _ h

theorem DBInv_ensureCats (db : DB) (sid : String) (fresh : Nat → String) (h : DBInv db) :
    DBInv (ensureThreeCategories db sid fresh).1 := by
  unfold ensureThreeCategories
  dsimp only
  split
  · exact h
  · exact h

theorem DBInv_deleteStudyOp (db : DB) (slug : String) (h : DBInv db) :
    DBInv (deleteStudyOp db slug) := by
  unfold deleteStudyOp
  cases hfind : findStudy db slug with
  | none => exact h
  | some study =>
      obtain ⟨hv, hc, hh, hr⟩ := h
      refine ⟨?_, ?_, ?_, ?_⟩
      · intro sid pid
        unfold versionsOf consentsFor
        dsimp only
        by_cases hs : sid = study.id
        · subst hs
          rw [filter_not_filter_sub]
          · rfl
          · intro a ha
            have h2 : a.studyId = study.id ∧ a.participantId = pid := by simpa using ha
            simp [h2.1]
        · rw [filter_not_filter_disj]
          · have hvv := hv sid pid
            unfold versionsOf consentsFor at hvv
            exact hvv
          · intro a ha
            have h2 : a.studyId = sid ∧ a.participantId = pid := by simpa using ha
            rw [h2.1]
            exact beq_eq_false_iff_ne.mpr hs
      · intro sid
        unfold auditFor
        dsimp only
        by_cases hs : sid = study.id
        · subst hs
          rw [filter_not_filter_sub]
          · trivial
          · intro a ha
            exact ha
        · rw [filter_not_filter_disj]
          · have hcc := hc sid
            unfold auditFor at hcc
            exact hcc
          · intro a ha
            have h2 : a.studyId = sid := by simpa using ha
            rw [h2]
            exact beq_eq_false_iff_ne.mpr hs
      · intro e he
        have he2 : e ∈ db.audit.filter (fun x => !(x.studyId == study.id)) := he
        exact hh e (List.mem_filter.mp he2).1
      · exact all_filter_of_all _ _ _ hr

theorem DBInv_empty : DBInv DB.empty := by
  refine ⟨fun sid pid => rfl, fun sid => trivial, ?_, rfl⟩
  intro e he
  exact absurd he (List.not_mem_nil e)

theorem DBInv_createStudyOp (db : DB) (id ownerId slug title contactEmail : String)
    (ret : Option Int) (status rawJoin genCode : String) (cid1 cid2 cid3 : String)
    (c1 c2 c3 : String × String × Bool × Option Int) (t1 t2 : String)
    (h : DBInv db) :
    DBInv (createStudyOp db id ownerId slug title contactEmail ret status rawJoin genCode
      cid1 cid2 cid3 c1 c2 c3 t1 t2).1 := by
  unfold createStudyOp
  dsimp only
  split
  · exact h
  · exact DBInv_addAudit _ _ _ _ _ _ _ _ h

theorem DBInv_applyOp (db : DB) (op : Op) (h : DBInv db) : DBInv (applyOp db op) := by
  cases op with
  | createStudy id ownerId slug title contactEmail ret status rawJoin genCode
      cid1 cid2 cid3 c1 c2 c3 t1 t2 =>
      exact DBInv_createStudyOp db id ownerId slug title contactEmail ret status rawJoin
        genCode cid1 cid2 cid3 c1 c2 c3 t1 t2 h
  | enroll slug pid code t1 t2 => exact DBInv_enrollOp db slug pid code t1 t2 h
  | join pid raw t1 t2 => exact DBInv_joinByCode db pid raw t1 t2 h
  | unenroll slug pid t1 t2 => exact DBInv_unenrollOp db slug pid t1 t2 h
  | consent slug pid form eff t1 t2 ck => exact DBInv_consentOp db slug pid form eff t1 t2 ck h
  | withdraw slug pid now t1 t2 ck => exact DBInv_withdrawOp db slug pid now t1 t2 ck h
  | ensureCats sid fresh => exact DBInv_ensureCats db sid fresh h
  | deleteStudy slug => exact DBInv_deleteStudyOp db slug h

theorem DBInv_applyOps (ops : List Op) : ∀ db, DBInv db → DBInv (applyOps db ops) := by
  induction ops with
  | nil => intro db h; exact h
  | cons op rest ih => intro db h; exact ih _ (DBInv_applyOp db op h)

theorem DBInv_run (ops : List Op) : DBInv (applyOps DB.empty ops) :=
  DBInv_applyOps ops DB.empty DBInv_empty

theorem upsert_mem (db : DB) (sid pid : String) :
    (sid, pid) ∈ (upsertEnrollment db sid pid).enrollments := by
  unfold upsertEnrollment
  split
  · next h => exact h
  · exact List.mem_append_right _ (List.mem_singleton_self _)

theorem upsert_mem_noop (db : DB) (sid pid : String)
    (h : (sid, pid) ∈ db.enrollments) : upsertEnrollment db sid pid = db := by
  unfold upsertEnrollment
  rw [if_pos h]

theorem count_one_of_nodup_mem {a : Type} [BEq a] [LawfulBEq a] {l : List a} {x : a}
    (hnd : l.Nodup) (h : x ∈ l) : List.count x l = 1 := by
  induction l with
  | nil => cases h
  | cons b t ih =>
      rcases List.mem_cons.mp h with rfl | hmem
      · have hnotmem : x ∉ t := (List.nodup_cons.mp hnd).1
        rw [List.count_cons, List.count_eq_zero_of_not_mem hnotmem]
        simp
      · have hne : b ≠ x := fun hbx => (List.nodup_cons.mp hnd).1 (hbx ▸ hmem)
        rw [List.count_cons, ih (List.nodup_cons.mp hnd).2 hmem]
        simp [hne]

theorem upsert_count_one (db : DB) (sid pid : String) (hnd : db.enrollments.Nodup) :
    List.count (sid, pid) (upsertEnrollment db sid pid).enrollments = 1 := by
  unfold upsertEnrollment
  split
  · next h => exact count_one_of_nodup_mem hnd h
  · next h =>
      show List.count (sid, pid) (db.enrollments ++ [(sid, pid)]) = 1
      rw [List.count_append, List.count_eq_zero_of_not_mem h]
      simp [List.count_cons]

theorem enrollOp_studies (db : DB) (slug pid code t1 t2 : String) :
    (enrollOp db slug pid code t1 t2).1.studies = db.studies := by
  unfold enrollOp
  cases hfind : findStudy db slug with
  | none => rfl
  | some study =>
      dsimp only
      split
      · rfl
      · rw [addAudit_studies, upsert_studies]

theorem enrollOp_audit (db : DB) (slug pid code t1 t2 : String) :
    db.audit <+: (enrollOp db slug pid code t1 t2).1.audit := by
  unfold enrollOp
  cases hfind : findStudy db slug with
  | none => exact List.prefix_refl _
  | some study =>
      dsimp only
      split
      · exact List.prefix_refl _
      · rw [addAudit_audit, upsert_audit]
        exact List.prefix_append _ _

theorem joinByCode_studies (db : DB) (pid raw t1 t2 : String) :
    (joinByCode db pid raw t1 t2).1.studies = db.studies := by
  unfold joinByCode
  dsimp only
  split
  · rfl
  · cases hfind : db.studies.find? (joinableWithCode (normCode raw)) with
    | none => rfl
    | some study => rw [addAudit_studies, upsert_studies]

theorem joinByCode_audit (db : DB) (pid raw t1 t2 : String) :
    db.audit <+: (joinByCode db pid raw t1 t2).1.audit := by
  unfold joinByCode
  dsimp only
  split
  · exact List.prefix_refl _
  · cases hfind : db.studies.find? (joinableWithCode (normCode raw)) with
    | none => exact List.prefix_refl _
    | some study =>
        rw [addAudit_audit, upsert_audit]
        exact List.prefix_append _ _

theorem unenrollOp_audit (db : DB) (slug pid t1 t2 : String) :
    db.audit <+: (unenrollOp db slug pid t1 t2).1.audit := by
  unfold unenrollOp
  cases hfind : findStudy db slug with
  | none => exact List.prefix_refl _
  | some study =>
      rw [addAudit_audit]
      exact List.prefix_append _ _

theorem consentOp_audit (db : DB) (slug pid : String) (form : String → Bool)
    (eff t1 t2 : String) (ck : Bool) :
    db.audit <+: (consentOp db slug pid form eff t1 t2 ck).1.audit := by
  unfold consentOp
  cases hfind : findStudy db slug with
  | none => exact List.prefix_refl _
  | some study =>
      cases ck with
      | false =>
          dsimp only
          rw [addAudit_audit]
          exact List.prefix_append _ _
      | true =>
          dsimp only
          rw [addAudit_audit]
          exact List.prefix_append _ _

theorem withdrawOp_audit (db : DB) (slug pid nowIso t1 t2 : String) (ck : Bool) :
    db.audit <+: (withdrawOp db slug pid nowIso t1 t2 ck).1.audit := by
  unfold withdrawOp
  cases hfind : findStudy db slug with
  | none => exact List.prefix_refl _
  | some study =>
      cases ck with
      | false =>
          dsimp only
          rw [addAudit_audit]
          exact List.prefix_append _ _
      | true =>
          dsimp only
          rw [addAudit_audit]
          exact List.prefix_append _ _

theorem ensureCats_audit (db : DB) (sid : String) (fresh : Nat → String) :
    (ensureThreeCategories db sid fresh).1.audit = db.audit := by
  unfold ensureThreeCategories
  dsimp only
  split
  · rfl
  · rfl

theorem createStudyOp_audit (db : DB) (id ownerId slug title contactEmail : String)
    (ret : Option Int) (status rawJoin genCode : String) (cid1 cid2 cid3 : String)
    (c1 c2 c3 : String × String × Bool × Option Int) (t1 t2 : String) :
    db.audit <+: (createStudyOp db id ownerId slug title contactEmail ret status rawJoin
      genCode cid1 cid2 cid3 c1 c2 c3 t1 t2).1.audit := by
  unfold createStudyOp
  dsimp only
  split
  · exact List.prefix_refl _
  · rw [addAudit_audit]
    exact List.prefix_append _ _

/-- C2: Under serialized appends, every study's stored audit entries (in
creation order) form an unbroken hash chain — the first entry's `prevHash`
is null and each later entry's `prevHash` equals its predecessor's
`entryHash` — and no modelled operation other than whole-study deletion
ever removes or rewrites an existing audit entry (the stored log is only
ever extended). -/
theorem audit_chain_unbroken_append_only :
    (∀ (ops : List Op) (sid : String),
        chainFrom none (auditFor (applyOps DB.empty ops) sid))
    ∧ (∀ (db : DB) (op : Op), op.isDelete = false →
        db.audit <+: (applyOp db op).audit) := by
  constructor
  · intro ops sid
    exact (DBInv_run ops).2.1 sid
  · intro db op hop
    cases op with
    | createStudy id ownerId slug title contactEmail ret status rawJoin genCode
        cid1 cid2 cid3 c1 c2 c3 t1 t2 =>
        exact createStudyOp_audit db id ownerId slug title contactEmail ret status rawJoin
          genCode cid1 cid2 cid3 c1 c2 c3 t1 t2
    | enroll slug pid code t1 t2 => exact enrollOp_audit db slug pid code t1 t2
    | join pid raw t1 t2 => exact joinByCode_audit db pid raw t1 t2
    | unenroll slug pid t1 t2 => exact unenrollOp_audit db slug pid t1 t2
    | consent slug pid form eff t1 t2 ck =>
        exact consentOp_audit db slug pid form eff t1 t2 ck
    | withdraw slug pid now t1 t2 ck =>
        exact withdrawOp_audit db slug pid now t1 t2 ck
    | ensureCats sid fresh =>
        show db.audit <+: (ensureThreeCategories db sid fresh).1.audit
        rw [ensureCats_audit]
    | deleteStudy slug => exact Bool.noConfusion hop

/-- Witness for the audit-chain theorem at the demonstration trace (whose
audit log for study `s1` holds four chained entries) and at a concrete
non-delete operation on the resulting store. -/
theorem audit_chain_unbroken_append_only_witness :
    chainFrom none (auditFor (applyOps DB.empty demoOps) "s1")
    ∧ (applyOps DB.empty demoOps).audit
        <+: (applyOp (applyOps DB.empty demoOps)
              (Op.enroll "study-one" "p2" "" "T11" "T12")).audit :=
  ⟨audit_chain_unbroken_append_only.1 demoOps "s1",
   audit_chain_unbroken_append_only.2 (applyOps DB.empty demoOps)
     (Op.enroll "study-one" "p2" "" "T11" "T12") rfl⟩

/-- The demonstration trace genuinely populates the store: it creates one
study, chains four audit entries for it, and records two consent versions
for the participant — so the trace-quantified chain, receipt and
versioning theorems are not satisfied vacuously. -/
theorem demoOps_populates_store :
    (applyOps DB.empty demoOps).studies.length = 1
    ∧ ((auditFor (applyOps DB.empty demoOps) "s1").map (fun e => e.action))
        = ["STUDY_CREATED", "ENROLLED", "CONSENT_GIVEN", "WITHDRAWN"]
    ∧ versionsOf (applyOps DB.empty demoOps) "s1" "p1" = [1, 2]
    ∧ ((applyOps DB.empty demoOps).consents.map (fun c => c.withdrawnAt))
        = [none, some "T08"] :=
  ⟨rfl, rfl, rfl, rfl⟩

/-- C3: Every Consent row stored by any sequence of modelled operations
passes receipt self-verification: recomputing the SHA-256 digest over the
persisted `receiptJson` body with the `receipt_hash` field removed,
prefixed with `"sha256:"`, equals the stored `receiptHash` column. -/
theorem receipts_self_verifying :
    ∀ ops : List Op, ((applyOps DB.empty ops).consents).all receiptOk = true :=
  fun ops => (DBInv_run ops).2.2.2

/-- C5: For every `(study, participant)` pair, after any sequence of
modelled operations the stored consent versions in creation order are
exactly `1, 2, …, n` — gapless, strictly increasing, starting at 1, with
withdrawals occupying ordinary positions. -/
theorem consent_versions_gapless :
    ∀ (ops : List Op) (sid pid : String),
      versionsOf (applyOps DB.empty ops) sid pid
        = List.range' 1 (versionsOf (applyOps DB.empty ops) sid pid).length :=
  fun ops sid pid => (DBInv_run ops).1 sid pid

/-- C9: `ensureThreeCategories` is idempotent — an immediately following
second call creates no new rows and returns the same pair (same store,
same ordered category list). -/
theorem ensureThreeCategories_idempotent :
    ∀ (db : DB) (sid : String) (f g : Nat → String),
      ensureThreeCategories (ensureThreeCategories db sid f).1 sid g
        = ensureThreeCategories db sid f := by
  intro db sid f g
  by_cases hlen : (catsFor db sid).length ≥ 3
  · have h1 : ensureThreeCategories db sid f = (db, catsFor db sid) := by
      unfold ensureThreeCategories
      dsimp only
      rw [if_pos hlen]
    rw [h1]
    unfold ensureThreeCategories
    dsimp only
    rw [if_pos hlen]
  · have h1 : ensureThreeCategories db sid f
        = ({ db with cats := db.cats ++ missingDefaults sid (catsFor db sid).length f },
           catsFor { db with cats := db.cats ++ missingDefaults sid (catsFor db sid).length f } sid) := by
      unfold ensureThreeCategories
      dsimp only
      rw [if_neg hlen]
    have hcats1 : catsFor { db with cats := db.cats ++ missingDefaults sid (catsFor db sid).length f } sid
        = catsFor db sid ++ missingDefaults sid (catsFor db sid).length f := by
      unfold catsFor
      dsimp only
      rw [List.filter_append]
      congr 1
      apply List.filter_eq_self.mpr
      intro a ha
      have hsid : a.studyId = sid := by
        unfold missingDefaults at ha
        rw [List.mem_map] at ha
        obtain ⟨i, _, rfl⟩ := ha
        rfl
      rw [hsid]
      exact beq_self_eq_true sid
    have hfull : (catsFor { db with cats := db.cats ++ missingDefaults sid (catsFor db sid).length f } sid).length ≥ 3 := by
      rw [hcats1, List.length_append]
      unfold missingDefaults
      rw [List.length_map, List.length_range']
      omega
    rw [h1]
    unfold ensureThreeCategories
    dsimp only
    rw [if_pos hfull]

/-- C10: Recording a consent decision or a withdrawal requires only that
the slug resolves: on an unknown slug the operation returns not-found and
changes nothing, and whenever the slug resolves the operation succeeds —
for every store state, hence regardless of enrollment and study status. -/
theorem consent_withdraw_gate_is_slug_only :
    (∀ (db : DB) (slug pid : String) (form : String → Bool) (eff t1 t2 : String),
       (findStudy db slug = none →
         consentOp db slug pid form eff t1 t2 true = (db, .notFound))
       ∧ (∀ study, findStudy db slug = some study →
           (consentOp db slug pid form eff t1 t2 true).2
             = .ok (nextVersion db study.id pid)))
    ∧ (∀ (db : DB) (slug pid nowIso t1 t2 : String),
       (findStudy db slug = none →
         withdrawOp db slug pid nowIso t1 t2 true = (db, .notFound))
       ∧ (∀ study, findStudy db slug = some study →
           (withdrawOp db slug pid nowIso t1 t2 true).2
             = .ok (nextVersion db study.id pid))) := by
  constructor
  · intro db slug pid form eff t1 t2
    constructor
    · intro h
      unfold consentOp
      rw [h]
    · intro study h
      unfold consentOp
      rw [h]
      rfl
  · intro db slug pid nowIso t1 t2
    constructor
    · intro h
      unfold withdrawOp
      rw [h]
    · intro study h
      unfold withdrawOp
      rw [h]
      rfl

/-- Witness for the consent/withdraw gate theorem: on a draft study with no
enrollment the operations succeed; an unknown slug yields not-found. -/
theorem consent_withdraw_gate_is_slug_only_witness :
    consentOp dbDraft "nope" "p1" (fun _ => true) "T0" "T1" "T2" true
        = (dbDraft, .notFound)
    ∧ (consentOp dbDraft "draft-study" "p1" (fun _ => true) "T0" "T1" "T2" true).2
        = .ok (nextVersion dbDraft "s1" "p1")
    ∧ (withdrawOp dbDraft "draft-study" "p1" "T0" "T1" "T2" true).2
        = .ok (nextVersion dbDraft "s1" "p1") :=
  ⟨(consent_withdraw_gate_is_slug_only.1 dbDraft "nope" "p1" (fun _ => true) "T0" "T1" "T2").1 rfl,
   (consent_withdraw_gate_is_slug_only.1 dbDraft "draft-study" "p1" (fun _ => true) "T0" "T1" "T2").2
     (mkStudy "s1" "draft-study" "draft" none) rfl,
   (consent_withdraw_gate_is_slug_only.2 dbDraft "draft-study" "p1" "T0" "T1" "T2").2
     (mkStudy "s1" "draft-study" "draft" none) rfl⟩

/-- C1 (code bug): at a concrete append where the database clock (`dbNow`,
which fills the `createdAt` column via its `DEFAULT CURRENT_TIMESTAMP`)
differs from the JavaScript `new Date()` (`jsNow`) that was hashed, the
persisted entry's hash is **not** recomputable from its persisted fields:
the recomputation prescribed by the spec disagrees with the stored
`entryHash`, because `addAudit` never persists the timestamp it hashed. -/
theorem audit_hash_not_recomputable_at_failing_input :
    ((addAudit dbPub "s1" "participant" (some "p1") "ENROLLED"
        (Json.obj [("via", Json.str "study_page")])
        "2025-08-30T11:29:01.000Z" "2025-08-30T11:29:01.003Z").2.createdAt
      = "2025-08-30T11:29:01.003Z")
    ∧ specRecomputeEntryHash
        (addAudit dbPub "s1" "participant" (some "p1") "ENROLLED"
          (Json.obj [("via", Json.str "study_page")])
          "2025-08-30T11:29:01.000Z" "2025-08-30T11:29:01.003Z").2
      ≠ (addAudit dbPub "s1" "participant" (some "p1") "ENROLLED"
          (Json.obj [("via", Json.str "study_page")])
          "2025-08-30T11:29:01.000Z" "2025-08-30T11:29:01.003Z").2.entryHash :=
  ⟨rfl, by decide⟩

/-- C4 counterexample: when the surrounding transaction fails at commit
(`commitOk = false`) after the audit insert already committed on the global
client, the audit entry survives while no Consent row does — refuting
"either all of them are persisted or none of them are". -/
theorem consent_audit_commit_not_atomic_counterexample :
    (consentOp dbPub "study-1" "p1" (fun _ => true) "T0" "T1" "T2" false).1.consents = []
    ∧ ((consentOp dbPub "study-1" "p1" (fun _ => true) "T0" "T1" "T2" false).1.audit.map
        (fun e => e.action)) = ["CONSENT_GIVEN"]
    ∧ (consentOp dbPub "study-1" "p1" (fun _ => true) "T0" "T1" "T2" false).2
        = ConsentResult.txFailed :=
  ⟨rfl, rfl, rfl⟩

/-- C4 amended: the Consent row and its ConsentChoice rows are atomic with
each other (one nested create, present exactly when the transaction
commits), but the paired audit append runs on the global client inside the
transaction callback and therefore persists whether or not the business
transaction commits. -/
theorem consent_tx_audit_commit_independent :
    ∀ (db : DB) (slug pid : String) (form : String → Bool) (eff t1 t2 : String)
      (study : Study) (ck : Bool),
      findStudy db slug = some study →
      ((∃ e, (consentOp db slug pid form eff t1 t2 ck).1.audit = db.audit ++ [e])
       ∧ ((consentOp db slug pid form eff t1 t2 false).1.consents = db.consents)
       ∧ (∃ r, (consentOp db slug pid form eff t1 t2 true).1.consents = db.consents ++ [r]))
      ∧ ((∃ e, (withdrawOp db slug pid eff t1 t2 ck).1.audit = db.audit ++ [e])
       ∧ ((withdrawOp db slug pid eff t1 t2 false).1.consents = db.consents)
       ∧ (∃ r, (withdrawOp db slug pid eff t1 t2 true).1.consents = db.consents ++ [r])) := by
  intro db slug pid form eff t1 t2 study ck hfind
  constructor
  · refine ⟨?_, ?_, ?_⟩
    · unfold consentOp
      rw [hfind]
      cases ck with
      | false =>
          dsimp only
          rw [addAudit_audit]
          exact ⟨_, rfl⟩
      | true =>
          dsimp only
          rw [addAudit_audit]
          exact ⟨_, rfl⟩
    · unfold consentOp
      rw [hfind]
      rfl
    · unfold consentOp
      rw [hfind]
      exact ⟨_, rfl⟩
  · refine ⟨?_, ?_, ?_⟩
    · unfold withdrawOp
      rw [hfind]
      cases ck with
      | false =>
          dsimp only
          rw [addAudit_audit]
          exact ⟨_, rfl⟩
      | true =>
          dsimp only
          rw [addAudit_audit]
          exact ⟨_, rfl⟩
    · unfold withdrawOp
      rw [hfind]
      rfl
    · unfold withdrawOp
      rw [hfind]
      exact ⟨_, rfl⟩

/-- Witness for the amended commit-independence theorem at a concrete
store. -/
theorem consent_tx_audit_commit_independent_witness :
    ((∃ e, (consentOp dbPub "study-1" "p1" (fun _ => true) "T0" "T1" "T2" false).1.audit
        = dbPub.audit ++ [e])
     ∧ ((consentOp dbPub "study-1" "p1" (fun _ => true) "T0" "T1" "T2" false).1.consents
        = dbPub.consents)
     ∧ (∃ r, (consentOp dbPub "study-1" "p1" (fun _ => true) "T0" "T1" "T2" true).1.consents
        = dbPub.consents ++ [r]))
    ∧ ((∃ e, (withdrawOp dbPub "study-1" "p1" "T0" "T1" "T2" false).1.audit
        = dbPub.audit ++ [e])
     ∧ ((withdrawOp dbPub "study-1" "p1" "T0" "T1" "T2" false).1.consents
        = dbPub.consents)
     ∧ (∃ r, (withdrawOp dbPub "study-1" "p1" "T0" "T1" "T2" true).1.consents
        = dbPub.consents ++ [r])) :=
  consent_tx_audit_commit_independent dbPub "study-1" "p1" (fun _ => true)
    "T0" "T1" "T2" (mkStudy "s1" "study-1" "public" none) false rfl

/-- C6 counterexample: a withdrawal on a study whose only category is
`required` stores a Consent version whose choice for that category has
`allowed = false` — refuting "in every stored Consent version, every
ConsentChoice whose category is required has allowed = true". -/
theorem withdraw_denies_required_category_counterexample :
    ((withdrawOp dbPub "study-1" "p1" "T0" "T1" "T2" true).1.consents.map
        (fun c => c.choices)) = [[{ categoryId := "c1", allowed := false }]]
    ∧ (dbPub.cats.map (fun c => (c.id, c.required))) = [("c1", true)] :=
  ⟨rfl, rfl⟩

theorem getD_map_allowed (cats : List DataCategory) (form : String → Bool) (i : Nat)
    (hi : i < cats.length) (hreq : (cats.getD i dummyCat).required = true) :
    ((cats.map (fun c =>
        ({ categoryId := c.id, allowed := if c.required then true else form c.id } : ConsentChoice))).getD
      i dummyChoice).allowed = true := by
  have hlen : i < (cats.map (fun c =>
      ({ categoryId := c.id, allowed := if c.required then true else form c.id } : ConsentChoice))).length := by
    rw [List.length_map]
    exact hi
  rw [List.getD_eq_getElem _ _ hlen, List.getElem_map]
  rw [List.getD_eq_getElem _ _ hi] at hreq
  simp [hreq]

/-- C6 amended: in every version created by the consent operation a
`required` category's choice is forced to `allowed = true` regardless of
the submitted form value, while a version created by the withdraw
operation forces **every** choice (required categories included) to
`allowed = false` and sets `withdrawnAt`. -/
theorem required_forced_allowed_except_withdrawal :
    ∀ (db : DB) (slug pid : String) (form : String → Bool) (eff t1 t2 : String)
      (study : Study),
      findStudy db slug = some study →
      (∃ r, (consentOp db slug pid form eff t1 t2 true).1.consents = db.consents ++ [r]
        ∧ r.withdrawnAt = none
        ∧ r.choices = (catsFor db study.id).map (fun c =>
            { categoryId := c.id, allowed := if c.required then true else form c.id })
        ∧ ∀ i, i < (catsFor db study.id).length →
            ((catsFor db study.id).getD i dummyCat).required = true →
            (r.choices.getD i dummyChoice).allowed = true)
      ∧ (∃ r, (withdrawOp db slug pid eff t1 t2 true).1.consents = db.consents ++ [r]
        ∧ r.withdrawnAt = some eff
        ∧ r.choices = (catsFor db study.id).map (fun c =>
            { categoryId := c.id, allowed := false })
        ∧ ∀ ch ∈ r.choices, ch.allowed = false) := by
  intro db slug pid form eff t1 t2 study hfind
  constructor
  · unfold consentOp
    rw [hfind]
    dsimp only
    refine ⟨_, rfl, rfl, rfl, ?_⟩
    intro i hi hreq
    exact getD_map_allowed (catsFor db study.id) form i hi hreq
  · unfold withdrawOp
    rw [hfind]
    dsimp only
    refine ⟨_, rfl, rfl, rfl, ?_⟩
    intro ch hch
    have hch2 : ch ∈ (catsFor db study.id).map
        (fun c => ({ categoryId := c.id, allowed := false } : ConsentChoice)) := hch
    rw [List.mem_map] at hch2
    obtain ⟨c, _, rfl⟩ := hch2
    rfl

/-- Witness for the amended required-categories theorem at a concrete
store with a required category. -/
theorem required_forced_allowed_except_withdrawal_witness :
    (∃ r, (consentOp dbPub "study-1" "p1" (fun _ => false) "T0" "T1" "T2" true).1.consents
        = dbPub.consents ++ [r]
      ∧ r.withdrawnAt = none
      ∧ r.choices = (catsFor dbPub "s1").map (fun c =>
          { categoryId := c.id, allowed := if c.required then true else false })
      ∧ ∀ i, i < (catsFor dbPub "s1").length →
          ((catsFor dbPub "s1").getD i dummyCat).required = true →
          (r.choices.getD i dummyChoice).allowed = true)
    ∧ (∃ r, (withdrawOp dbPub "study-1" "p1" "T0" "T1" "T2" true).1.consents
        = dbPub.consents ++ [r]
      ∧ r.withdrawnAt = some "T0"
      ∧ r.choices = (catsFor dbPub "s1").map (fun c =>
          { categoryId := c.id, allowed := false })
      ∧ ∀ ch ∈ r.choices, ch.allowed = false) :=
  required_forced_allowed_except_withdrawal dbPub "study-1" "p1" (fun _ => false)
    "T0" "T1" "T2" (mkStudy "s1" "study-1" "public" none) rfl

theorem enrollOp_pass (db : DB) (slug pid code t1 t2 : String) (study : Study)
    (hfind : findStudy db slug = some study)
    (hgate : inviteGateBlocks study code = false) :
    (enrollOp db slug pid code t1 t2).2 = .ok
    ∧ (enrollOp db slug pid code t1 t2).1.enrollments
        = (upsertEnrollment db study.id pid).enrollments := by
  unfold enrollOp
  rw [hfind]
  dsimp only
  rw [if_neg (by rw [hgate]; exact Bool.false_ne_true)]
  exact ⟨rfl, addAudit_enrollments _ _ _ _ _ _ _ _⟩

theorem enrollOp_ok_gate (db : DB) (slug pid code t1 t2 : String) (study : Study)
    (hfind : findStudy db slug = some study)
    (hok : (enrollOp db slug pid code t1 t2).2 = .ok) :
    inviteGateBlocks study code = false := by
  cases hgb : inviteGateBlocks study code with
  | false => rfl
  | true =>
      exfalso
      unfold enrollOp at hok
      rw [hfind] at hok
      dsimp only at hok
      rw [if_pos hgb] at hok
      cases hok

/-- C7 counterexample: the direct enroll endpoint succeeds on a `draft`
study and creates an Enrollment row — refuting "for every study whose
status is draft, the join/enroll operation fails and creates no Enrollment
row". -/
theorem draft_enroll_succeeds_counterexample :
    (enrollOp dbDraft "draft-study" "p1" "" "T1" "T2").2 = EnrollResult.ok
    ∧ (enrollOp dbDraft "draft-study" "p1" "" "T1" "T2").1.enrollments
        = [("s1", "p1")] :=
  ⟨rfl, rfl⟩

/-- C7 amended: the code-based join route never admits into a `draft` study
(it fails and leaves the store unchanged), but the direct enroll endpoint
performs no status check: on a `draft` study it succeeds and records the
enrollment (only the study *view* route blocks drafts from participants). -/
theorem draft_blocked_on_join_code_not_on_enroll :
    (∀ (db : DB) (pid raw t1 t2 : String),
      (∀ s ∈ db.studies, s.status = "draft") →
      ((joinByCode db pid raw t1 t2).1 = db
       ∧ ∀ sl, (joinByCode db pid raw t1 t2).2 ≠ .ok sl))
    ∧ (∀ (db : DB) (slug pid t1 t2 : String) (study : Study),
      findStudy db slug = some study →
      study.status = "draft" →
      ((enrollOp db slug pid "" t1 t2).2 = .ok
       ∧ (study.id, pid) ∈ (enrollOp db slug pid "" t1 t2).1.enrollments)) := by
  constructor
  · intro db pid raw t1 t2 hall
    unfold joinByCode
    dsimp only
    split
    · exact ⟨rfl, fun sl h => by cases h⟩
    · cases hfind : db.studies.find? (joinableWithCode (normCode raw)) with
      | none => exact ⟨rfl, fun sl h => by cases h⟩
      | some study =>
          exfalso
          have hp := List.find?_some hfind
          have hmem := List.mem_of_find?_eq_some hfind
          have hst := hall study hmem
          unfold joinableWithCode at hp
          rw [hst] at hp
          rw [show (("draft" : String) == "invite") = false from by decide,
            show (("draft" : String) == "public") = false from by decide] at hp
          simp at hp
  · intro db slug pid t1 t2 study hfind hstatus
    have hgate : inviteGateBlocks study "" = false := by
      unfold inviteGateBlocks
      dsimp only
      rw [hstatus]
      rw [show (jsToLower "draft" == "invite") = false from by decide]
      simp
    have h1 := enrollOp_pass db slug pid "" t1 t2 study hfind hgate
    refine ⟨h1.1, ?_⟩
    rw [h1.2]
    exact upsert_mem db study.id pid

/-- Witness for the amended draft-admission theorem: the code-based join
fails on a store holding only a draft study, while the direct enroll
endpoint succeeds on that same study. -/
theorem draft_blocked_on_join_code_not_on_enroll_witness :
    (((joinByCode dbDraft "p1" "ABCD1234" "T1" "T2").1 = dbDraft
      ∧ ∀ sl, (joinByCode dbDraft "p1" "ABCD1234" "T1" "T2").2 ≠ .ok sl))
    ∧ ((enrollOp dbDraft "draft-study" "p1" "" "T1" "T2").2 = .ok
      ∧ ("s1", "p1") ∈ (enrollOp dbDraft "draft-study" "p1" "" "T1" "T2").1.enrollments) :=
  ⟨draft_blocked_on_join_code_not_on_enroll.1 dbDraft "p1" "ABCD1234" "T1" "T2"
     (by decide),
   draft_blocked_on_join_code_not_on_enroll.2 dbDraft "draft-study" "p1" "T1" "T2"
     (mkStudy "s1" "draft-study" "draft" none) rfl rfl⟩

theorem joinByCode_pass (db : DB) (pid raw t1 t2 : String) (study : Study)
    (hfmt : joinCodeFormatBad (normCode raw) = false)
    (hfind : db.studies.find? (joinableWithCode (normCode raw)) = some study) :
    (joinByCode db pid raw t1 t2).2 = .ok study.slug
    ∧ (joinByCode db pid raw t1 t2).1.enrollments
        = (upsertEnrollment db study.id pid).enrollments := by
  unfold joinByCode
  dsimp only
  rw [if_neg (by rw [hfmt]; exact Bool.false_ne_true), hfind]
  exact ⟨rfl, addAudit_enrollments _ _ _ _ _ _ _ _⟩

/-- C8: Enrollment is idempotent.  For both admission paths — the direct
enroll endpoint and the code-based join — a second successful call by the
same participant (with the same code) succeeds, leaves the Enrollment
table unchanged, and afterwards exactly one Enrollment row exists for the
`(studyId, participantId)` pair (given the table's unique-key invariant). -/
theorem enrollment_idempotent :
    (∀ (db : DB) (slug pid code t1 t2 t3 t4 : String) (study : Study),
      db.enrollments.Nodup →
      findStudy db slug = some study →
      (enrollOp db slug pid code t1 t2).2 = .ok →
      ((enrollOp (enrollOp db slug pid code t1 t2).1 slug pid code t3 t4).2 = .ok
       ∧ (enrollOp (enrollOp db slug pid code t1 t2).1 slug pid code t3 t4).1.enrollments
           = (enrollOp db slug pid code t1 t2).1.enrollments
       ∧ List.count (study.id, pid)
           (enrollOp (enrollOp db slug pid code t1 t2).1 slug pid code t3 t4).1.enrollments
         = 1))
    ∧ (∀ (db : DB) (pid raw t1 t2 t3 t4 : String) (study : Study),
      db.enrollments.Nodup →
      joinCodeFormatBad (normCode raw) = false →
      db.studies.find? (joinableWithCode (normCode raw)) = some study →
      ((joinByCode (joinByCode db pid raw t1 t2).1 pid raw t3 t4).2 = .ok study.slug
       ∧ (joinByCode (joinByCode db pid raw t1 t2).1 pid raw t3 t4).1.enrollments
           = (joinByCode db pid raw t1 t2).1.enrollments
       ∧ List.count (study.id, pid)
           (joinByCode (joinByCode db pid raw t1 t2).1 pid raw t3 t4).1.enrollments
         = 1)) := by
  constructor
  · intro db slug pid code t1 t2 t3 t4 study hnd hfind hok
    have hgate := enrollOp_ok_gate db slug pid code t1 t2 study hfind hok
    have h1 := enrollOp_pass db slug pid code t1 t2 study hfind hgate
    have hfind1 : findStudy (enrollOp db slug pid code t1 t2).1 slug = some study := by
      unfold findStudy
      rw [enrollOp_studies]
      exact hfind
    have h2 := enrollOp_pass (enrollOp db slug pid code t1 t2).1 slug pid code t3 t4
      study hfind1 hgate
    have hmem : (study.id, pid) ∈ (enrollOp db slug pid code t1 t2).1.enrollments := by
      rw [h1.2]
      exact upsert_mem db study.id pid
    have hnoop : upsertEnrollment (enrollOp db slug pid code t1 t2).1 study.id pid
        = (enrollOp db slug pid code t1 t2).1 := upsert_mem_noop _ study.id pid hmem
    refine ⟨h2.1, ?_, ?_⟩
    · rw [h2.2, hnoop]
    · rw [h2.2, hnoop, h1.2]
      exact upsert_count_one db study.id pid hnd
  · intro db pid raw t1 t2 t3 t4 study hnd hfmt hfind
    have h1 := joinByCode_pass db pid raw t1 t2 study hfmt hfind
    have hfind1 : (joinByCode db pid raw t1 t2).1.studies.find?
        (joinableWithCode (normCode raw)) = some study := by
      rw [joinByCode_studies]
      exact hfind
    have h2 := joinByCode_pass (joinByCode db pid raw t1 t2).1 pid raw t3 t4
      study hfmt hfind1
    have hmem : (study.id, pid) ∈ (joinByCode db pid raw t1 t2).1.enrollments := by
      rw [h1.2]
      exact upsert_mem db study.id pid
    have hnoop : upsertEnrollment (joinByCode db pid raw t1 t2).1 study.id pid
        = (joinByCode db pid raw t1 t2).1 := upsert_mem_noop _ study.id pid hmem
    refine ⟨h2.1, ?_, ?_⟩
    · rw [h2.2, hnoop]
    · rw [h2.2, hnoop, h1.2]
      exact upsert_count_one db study.id pid hnd

/-- Witness for enrollment idempotence: a double enroll on a public study
and a double code-based join on an invite study. -/
theorem enrollment_idempotent_witness :
    ((enrollOp (enrollOp dbPub "study-1" "p1" "" "T1" "T2").1 "study-1" "p1" "" "T3" "T4").2
        = .ok
     ∧ (enrollOp (enrollOp dbPub "study-1" "p1" "" "T1" "T2").1 "study-1" "p1" "" "T3" "T4").1.enrollments
        = (enrollOp dbPub "study-1" "p1" "" "T1" "T2").1.enrollments
     ∧ List.count ("s1", "p1")
        (enrollOp (enrollOp dbPub "study-1" "p1" "" "T1" "T2").1 "study-1" "p1" "" "T3" "T4").1.enrollments
        = 1)
    ∧ ((joinByCode (joinByCode dbInvite "p1" "ABCD1234" "T1" "T2").1 "p1" "ABCD1234" "T3" "T4").2
        = .ok "invite-study"
     ∧ (joinByCode (joinByCode dbInvite "p1" "ABCD1234" "T1" "T2").1 "p1" "ABCD1234" "T3" "T4").1.enrollments
        = (joinByCode dbInvite "p1" "ABCD1234" "T1" "T2").1.enrollments
     ∧ List.count ("s1", "p1")
        (joinByCode (joinByCode dbInvite "p1" "ABCD1234" "T1" "T2").1 "p1" "ABCD1234" "T3" "T4").1.enrollments
        = 1) :=
  ⟨enrollment_idempotent.1 dbPub "study-1" "p1" "" "T1" "T2" "T3" "T4"
     (mkStudy "s1" "study-1" "public" none) List.nodup_nil rfl rfl,
   enrollment_idempotent.2 dbInvite "p1" "ABCD1234" "T1" "T2" "T3" "T4"
     (mkStudy "s1" "invite-study" "invite" (some "ABCD1234")) List.nodup_nil rfl rfl⟩
